import Mathlib

/-!
Shallow embedding of the core of `grizli/model.py` (dispersion engine,
detector-model compositing, optimal extraction, redshift fitting), with
theorems settling the frozen claims.  Machine floats are idealized as `ℚ`;
2D arrays are lists of row lists.  External numeric primitives that are not
part of the source file (the C rasterizer `disperse.disperse_grism_object`,
the flux-conserving interpolator `interp.interp_conserve_c`, and
`utils.SpectrumTemplate.zscale`) are modelled from their contracts in the
specification, marked `Modelled from the spec:` below.
-/

namespace Grizli

/-- A 2D array as a list of rows. -/
abbrev Mat : Type := List (List ℚ)

/-- Element access with numpy-style default 0 outside the stored extent. -/
def mget (A : Mat) (i j : ℕ) : ℚ := (A.getD i []).getD j 0

/-- Build an `n × m` matrix from an entry function. -/
def buildMat (n m : ℕ) (f : ℕ → ℕ → ℚ) : Mat :=
  (List.range n).map fun i => (List.range m).map fun j => f i j

/-- `A` is a rectangular `n × m` array. -/
def rect (A : Mat) (n m : ℕ) : Prop :=
  A.length = n ∧ ∀ row ∈ A, row.length = m

instance (A : Mat) (n m : ℕ) : Decidable (rect A n m) := by
  unfold rect
  infer_instance

/-- `full_array.shape` for a rectangular array (numpy `shape`). -/
def pyShape (A : Mat) : ℕ × ℕ := (A.length, (A.headD []).length)

/-- Elementwise negation, `-beam.model`. -/
def matNeg (A : Mat) : Mat := A.map (List.map Neg.neg)

theorem mget_buildMat {n m : ℕ} (f : ℕ → ℕ → ℚ) {i j : ℕ}
    (hi : i < n) (hj : j < m) : mget (buildMat n m f) i j = f i j := by
  unfold mget buildMat
  have h1 : ((List.range n).map
      (fun i => (List.range m).map (fun j => f i j))).getD i []
      = (List.range m).map (fun j => f i j) := by
    rw [List.getD_eq_getElem?_getD, List.getElem?_map, List.getElem?_range hi]
    rfl
  rw [h1, List.getD_eq_getElem?_getD, List.getElem?_map, List.getElem?_range hj]
  rfl

theorem rect_buildMat (n m : ℕ) (f : ℕ → ℕ → ℚ) : rect (buildMat n m f) n m := by
  constructor
  · simp [buildMat]
  · intro row hrow
    simp only [buildMat, List.mem_map] at hrow
    obtain ⟨i, _, rfl⟩ := hrow
    simp

theorem mget_matNeg (A : Mat) (i j : ℕ) : mget (matNeg A) i j = - mget A i j := by
  unfold mget matNeg
  rcases h : A[i]? with _ | row
  · have h1 : (A.map (List.map Neg.neg)).getD i [] = [] := by
      rw [List.getD_eq_getElem?_getD, List.getElem?_map, h]
      rfl
    have h2 : A.getD i [] = [] := by
      rw [List.getD_eq_getElem?_getD, h]
      rfl
    rw [h1, h2]
    simp
  · have h1 : (A.map (List.map Neg.neg)).getD i [] = row.map Neg.neg := by
      rw [List.getD_eq_getElem?_getD, List.getElem?_map, h]
      rfl
    have h2 : A.getD i [] = row := by
      rw [List.getD_eq_getElem?_getD, h]
      rfl
    rw [h1, h2]
    rcases h3 : row[j]? with _ | v
    · have h4 : (row.map Neg.neg).getD j 0 = 0 := by
        rw [List.getD_eq_getElem?_getD, List.getElem?_map, h3]
        rfl
      have h5 : row.getD j 0 = 0 := by
        rw [List.getD_eq_getElem?_getD, h3]
        rfl
      rw [h4, h5]
      simp
    · have h4 : (row.map Neg.neg).getD j 0 = -v := by
        rw [List.getD_eq_getElem?_getD, List.getElem?_map, h3]
        rfl
      have h5 : row.getD j 0 = v := by
        rw [List.getD_eq_getElem?_getD, h3]
        rfl
      rw [h4, h5]

theorem pyShape_of_rect {A : Mat} {n m : ℕ} (h : rect A n m) (hn : 0 < n) :
    pyShape A = (n, m) := by
  obtain ⟨h1, h2⟩ := h
  rcases A with _ | ⟨r, rest⟩
  · simp at h1
    omega
  · have hr := h2 r (by simp)
    simp [pyShape, hr, ← h1]

/-- Geometry of one beam relative to the full detector frame:
`y0 = origin[0]` (`sly_parent.start`), `x0 = origin[1] + dxfull[0] + x0[1]`
(`slx_parent.start`), and `(ny, nx) = sh_beam`. -/
structure BeamGeo where
  y0 : ℤ
  x0 : ℤ
  ny : ℕ
  nx : ℕ
deriving DecidableEq

instance {ε α : Type} [DecidableEq ε] [DecidableEq α] :
    DecidableEq (Except ε α) := fun a b =>
  match a, b with
  | .error x, .error y =>
    if h : x = y then .isTrue (by rw [h])
    else .isFalse (by intro hh; injection hh; contradiction)
  | .error _, .ok _ => .isFalse (by intro hh; injection hh)
  | .ok _, .error _ => .isFalse (by intro hh; injection hh)
  | .ok x, .ok y =>
    if h : x = y then .isTrue (by rw [h])
    else .isFalse (by intro hh; injection hh; contradiction)

/-- `GrismDisperser.contained_in_full_array`: the parent-frame slices of the
beam lie strictly inside the full array (the source rejects `stop >= sh`). -/
def contained_in_full_array (b : BeamGeo) (full : Mat) : Bool :=
  if b.y0 < 0 ∨ b.x0 < 0 then false
  else if ((pyShape full).1 : ℤ) ≤ b.y0 + b.ny ∨
      ((pyShape full).2 : ℤ) ≤ b.x0 + b.nx then false
  else true

/-- Row indices of the beam kept by the source's clipping test
`oky = (ypix >= 0) & (ypix < sh[1])` — note the source compares the row
coordinate against `sh[1]`, the number of COLUMNS. -/
def okyList (b : BeamGeo) (sh1 : ℕ) : List ℕ :=
  (List.range b.ny).filter fun i => 0 ≤ b.y0 + (i : ℤ) ∧ b.y0 + (i : ℤ) < (sh1 : ℤ)

/-- Column indices kept by `okx = (xpix >= 0) & (xpix < sh[1])`. -/
def okxList (b : BeamGeo) (sh1 : ℕ) : List ℕ :=
  (List.range b.nx).filter fun j => 0 ≤ b.x0 + (j : ℤ) ∧ b.x0 + (j : ℤ) < (sh1 : ℤ)

/-- Row indices of the beam that genuinely overlap the detector rows, i.e.
clipped against `sh[0]`.  This follows the spec's words ("the valid
sub-window is computed from the overlap of local and detector pixel
ranges") and is used to compare against the source's `okyList`. -/
def specOverlapRows (b : BeamGeo) (sh0 : ℕ) : List ℕ :=
  (List.range b.ny).filter fun i => 0 ≤ b.y0 + (i : ℤ) ∧ b.y0 + (i : ℤ) < (sh0 : ℤ)

/-- The effect of the in-bounds slice assignment
`full_array[self.sly_parent, self.slx_parent] += data`: entries inside the
beam window are incremented by the corresponding `data` entry, all others
are untouched. -/
def windowAdd (b : BeamGeo) (data full : Mat) : Mat :=
  buildMat (pyShape full).1 (pyShape full).2 fun i j =>
    if b.y0 ≤ (i : ℤ) ∧ (i : ℤ) < b.y0 + b.ny ∧
       b.x0 ≤ (j : ℤ) ∧ (j : ℤ) < b.x0 + b.nx then
      mget full i j + mget data ((i : ℤ) - b.y0).toNat ((j : ℤ) - b.x0).toNat
    else mget full i j

/-- `GrismDisperser.add_to_full_image(data, full_array)`: add the beam-frame
`data` into the detector frame in place.  Returns `.error` where numpy would
raise (broadcasting failure of `full_array[sly, slx] += data[oky,:][:,okx]`),
otherwise `.ok (status, new_full)` mirroring the Python return value and the
post-call state of `full_array`. -/
def add_to_full_image (b : BeamGeo) (data full : Mat) :
    Except String (Bool × Mat) :=
  let sh0 := (pyShape full).1
  let sh1 := (pyShape full).2
  if contained_in_full_array b full then
    .ok (true, windowAdd b data full)
  else
    let okx := okxList b sh1
    let oky := okyList b sh1
    if okx = [] ∨ oky = [] then .ok (false, full)
    else
      let ymin : ℤ := b.y0 + (oky.headD 0 : ℤ)
      let ymax : ℤ := b.y0 + (oky.getLastD 0 : ℤ)
      let xmin : ℤ := b.x0 + (okx.headD 0 : ℤ)
      let xmax : ℤ := b.x0 + (okx.getLastD 0 : ℤ)
      let D := oky.length
      let R : ℕ := (min (ymax + 1) (sh0 : ℤ) - ymin).toNat
      if R = D then
        .ok (true, buildMat sh0 sh1 fun i j =>
          if ymin ≤ (i : ℤ) ∧ (i : ℤ) ≤ ymax ∧ xmin ≤ (j : ℤ) ∧ (j : ℤ) ≤ xmax then
            mget full i j +
              mget data ((i : ℤ) - b.y0).toNat ((j : ℤ) - b.x0).toNat
          else mget full i j)
      else if D = 1 then
        .ok (true, buildMat sh0 sh1 fun i j =>
          if ymin ≤ (i : ℤ) ∧ (i : ℤ) < min (ymax + 1) (sh0 : ℤ) ∧
             xmin ≤ (j : ℤ) ∧ (j : ℤ) ≤ xmax then
            mget full i j + mget data (oky.headD 0) ((j : ℤ) - b.x0).toNat
          else mget full i j)
      else .error "ValueError: operands could not be broadcast together"

/-- `GrismDisperser.cutout_from_full_image(full_array)`: extract a
beam-shaped cutout.  Returns `.ok none` for the `return False` path.  In the
clipped branch the source writes through `data[oky,:][:,okx] += ...`, where
`data[oky,:]` (boolean fancy indexing) is a COPY, so the written values are
discarded and the zeros array is returned unchanged. -/
def cutout_from_full_image (b : BeamGeo) (full : Mat) :
    Except String (Option Mat) :=
  let sh0 := (pyShape full).1
  let sh1 := (pyShape full).2
  if contained_in_full_array b full then
    .ok (some (buildMat b.ny b.nx fun i j =>
      mget full (b.y0 + (i : ℤ)).toNat (b.x0 + (j : ℤ)).toNat))
  else
    let okx := okxList b sh1
    let oky := okyList b sh1
    if okx = [] ∨ oky = [] then .ok none
    else
      let ymin : ℤ := b.y0 + (oky.headD 0 : ℤ)
      let ymax : ℤ := b.y0 + (oky.getLastD 0 : ℤ)
      let D := oky.length
      let R : ℕ := (min (ymax + 1) (sh0 : ℤ) - min ymin (sh0 : ℤ)).toNat
      if R = D ∨ R = 1 then
        .ok (some (buildMat b.ny b.nx fun _ _ => 0))
      else .error "ValueError: operands could not be broadcast together"

theorem contained_false_of_no_x_overlap {b : BeamGeo} {full : Mat}
    (hnx : 0 < b.nx)
    (hx : ∀ j < b.nx, ¬(0 ≤ b.x0 + (j : ℤ) ∧
      b.x0 + (j : ℤ) < ((pyShape full).2 : ℤ))) :
    contained_in_full_array b full = false := by
  unfold contained_in_full_array
  split_ifs with h1 h2
  · rfl
  · rfl
  · exfalso
    push_neg at h1 h2
    have h0 := hx 0 hnx
    push_neg at h0
    simp only [Nat.cast_zero, add_zero] at h0
    omega

theorem okxList_nil {b : BeamGeo} {sh1 : ℕ}
    (hx : ∀ j < b.nx, ¬(0 ≤ b.x0 + (j : ℤ) ∧ b.x0 + (j : ℤ) < (sh1 : ℤ))) :
    okxList b sh1 = [] := by
  unfold okxList
  rw [List.filter_eq_nil_iff]
  intro a ha
  simp only [List.mem_range] at ha
  simpa using hx a ha

/-- Claim C3: when the beam footprint overlaps the detector array on neither
axis, `add_to_full_image` and `cutout_from_full_image` both return the
failure value `False` without raising, and the detector array is left
unchanged. -/
theorem c3_out_of_bounds_is_noop (b : BeamGeo) (data full : Mat)
    (_hny : 0 < b.ny) (hnx : 0 < b.nx)
    (hx : ∀ j < b.nx, ¬(0 ≤ b.x0 + (j : ℤ) ∧
      b.x0 + (j : ℤ) < ((pyShape full).2 : ℤ)))
    (_hy : ∀ i < b.ny, ¬(0 ≤ b.y0 + (i : ℤ) ∧
      b.y0 + (i : ℤ) < ((pyShape full).1 : ℤ))) :
    add_to_full_image b data full = .ok (false, full) ∧
      cutout_from_full_image b full = .ok none := by
  have hc := contained_false_of_no_x_overlap hnx hx
  have hokx := @okxList_nil b (pyShape full).2 hx
  constructor
  · unfold add_to_full_image
    rw [hc]
    simp [hokx]
  · unfold cutout_from_full_image
    rw [hc]
    simp [hokx]

/-- Witness for C3 at a fully off-detector beam on a concrete 2×2 array. -/
theorem c3_out_of_bounds_is_noop_witness :
    add_to_full_image ⟨10, 10, 2, 2⟩ [[1, 1], [1, 1]] [[1, 2], [3, 4]]
        = .ok (false, [[1, 2], [3, 4]]) ∧
      cutout_from_full_image ⟨10, 10, 2, 2⟩ [[1, 2], [3, 4]] = .ok none :=
  c3_out_of_bounds_is_noop ⟨10, 10, 2, 2⟩ [[1, 1], [1, 1]] [[1, 2], [3, 4]]
    (by decide) (by decide) (by decide) (by decide)

/-- Claim C4 (code bug): the clipping path compares the ROW coordinates
against `sh[1]`, the number of columns.  On a 6-row × 3-column detector a
beam straddling the bottom edge (detector rows 4..6, so rows 4 and 5
genuinely overlap, as `specOverlapRows` confirms) is treated as fully out of
bounds: nothing is added and the failure value is returned.  Moreover in
`cutout_from_full_image` the clipped transfer `data[oky,:][:,okx] += ...`
writes into a fancy-indexing copy, so a straddling cutout from an all-9
square array comes back all zeros instead of carrying the overlapping
values. -/
theorem c4_partial_overlap_bug :
    add_to_full_image ⟨4, 0, 3, 2⟩ [[1, 1], [1, 1], [1, 1]]
        [[7, 7, 7], [7, 7, 7], [7, 7, 7], [7, 7, 7], [7, 7, 7], [7, 7, 7]]
      = .ok (false,
        [[7, 7, 7], [7, 7, 7], [7, 7, 7], [7, 7, 7], [7, 7, 7], [7, 7, 7]]) ∧
      specOverlapRows ⟨4, 0, 3, 2⟩ 6 ≠ [] ∧
      cutout_from_full_image ⟨-1, 0, 2, 2⟩ [[9, 9], [9, 9], [9, 9], [9, 9]]
        = .ok (some [[0, 0], [0, 0]]) ∧
      mget [[9, 9], [9, 9], [9, 9], [9, 9]] 0 0 ≠ 0 := by
  decide

/-- The amount `add_to_full_image` deposits at detector pixel `(i, j)` for a
beam `b` carrying model `m`: the matching model entry inside the beam
window, zero outside. -/
def contrib (b : BeamGeo) (m : Mat) (i j : ℕ) : ℚ :=
  if b.y0 ≤ (i : ℤ) ∧ (i : ℤ) < b.y0 + b.ny ∧
     b.x0 ≤ (j : ℤ) ∧ (j : ℤ) < b.x0 + b.nx then
    mget m ((i : ℤ) - b.y0).toNat ((j : ℤ) - b.x0).toNat
  else 0

theorem contrib_matNeg (b : BeamGeo) (m : Mat) (i j : ℕ) :
    contrib b (matNeg m) i j = - contrib b m i j := by
  unfold contrib
  split_ifs with h
  · exact mget_matNeg m _ _
  · simp

theorem add_contained (b : BeamGeo) (m full : Mat)
    (hc : contained_in_full_array b full = true) :
    add_to_full_image b m full = .ok (true, windowAdd b m full) := by
  unfold add_to_full_image
  rw [hc]
  rfl

theorem contained_pos {b : BeamGeo} {full : Mat}
    (hc : contained_in_full_array b full = true) :
    0 < (pyShape full).1 ∧ 0 < (pyShape full).2 := by
  unfold contained_in_full_array at hc
  split_ifs at hc with h1 h2
  push_neg at h1 h2
  refine ⟨?_, ?_⟩ <;> omega

theorem mget_windowAdd {b : BeamGeo} {data full : Mat} {sh0 sh1 : ℕ}
    (hrect : rect full sh0 sh1) (h0 : 0 < sh0) {i j : ℕ}
    (hi : i < sh0) (hj : j < sh1) :
    mget (windowAdd b data full) i j = mget full i j + contrib b data i j := by
  unfold windowAdd
  have hpy : pyShape full = (sh0, sh1) := pyShape_of_rect hrect h0
  rw [hpy]
  rw [mget_buildMat _ hi hj]
  unfold contrib
  split_ifs with h
  · rfl
  · exact (add_zero _).symm

theorem rect_windowAdd {b : BeamGeo} {data full : Mat} {sh0 sh1 : ℕ}
    (hrect : rect full sh0 sh1) (h0 : 0 < sh0) :
    rect (windowAdd b data full) sh0 sh1 := by
  unfold windowAdd
  have hpy : pyShape full = (sh0, sh1) := pyShape_of_rect hrect h0
  rw [hpy]
  exact rect_buildMat sh0 sh1 _

theorem contained_congr {b : BeamGeo} {A B : Mat}
    (h : pyShape A = pyShape B) :
    contained_in_full_array b A = contained_in_full_array b B := by
  unfold contained_in_full_array
  rw [h]

/-- The subtract-then-add loop at the end of `GrismFLT.compute_model_orders`
for an object id already registered in `object_dispersers` (`in_place=True`,
`store=True`): for each stored beam, `add_to_full_image(-beam.model,
output)`, then `beam.compute_model(...)` replaces the beam's model (the
recomputed models are the third components of the items), then
`add_to_full_image(beam.model, output)`.  The Boolean status of each add is
discarded, exactly as in the source; a numpy exception propagates. -/
def upsertLoop : List (BeamGeo × Mat × Mat) → Mat → Except String Mat
  | [], full => .ok full
  | x :: rest, full =>
    match add_to_full_image x.1 (matNeg x.2.1) full with
    | .error e => .error e
    | .ok r1 =>
      match add_to_full_image x.1 x.2.2 r1.2 with
      | .error e => .error e
      | .ok r2 => upsertLoop rest r2.2

/-- Claim C1: if the detector model equals (pixelwise) the contributions of
the registered beams of the updated object plus everything else
(`others`, the other objects' contributions), then after the
subtract-then-add update the detector model equals the new beams'
contributions plus the SAME `others` — every other object's contribution is
left numerically unchanged, with no residual of the old models. -/
theorem c1_upsert_exact_subtract_then_add
    (items : List (BeamGeo × Mat × Mat)) (full : Mat)
    (others : ℕ → ℕ → ℚ) (sh0 sh1 : ℕ)
    (hrect : rect full sh0 sh1)
    (hcont : ∀ x ∈ items, contained_in_full_array x.1 full = true)
    (hinv : ∀ i < sh0, ∀ j < sh1, mget full i j =
      others i j + (items.map fun x => contrib x.1 x.2.1 i j).sum) :
    ∃ full2, upsertLoop items full = .ok full2 ∧ rect full2 sh0 sh1 ∧
      ∀ i < sh0, ∀ j < sh1, mget full2 i j =
        others i j + (items.map fun x => contrib x.1 x.2.2 i j).sum := by
  induction items generalizing full others with
  | nil =>
    refine ⟨full, rfl, hrect, ?_⟩
    intro i hi j hj
    simpa using hinv i hi j hj
  | cons x rest ih =>
    have hcx := hcont x (by simp)
    have h0 : 0 < sh0 := by
      have := (contained_pos hcx).1
      have hl : (pyShape full).1 = sh0 := hrect.1
      omega
    have hpy : pyShape full = (sh0, sh1) := pyShape_of_rect hrect h0
    set full1 := windowAdd x.1 (matNeg x.2.1) full with hfull1
    have hrect1 : rect full1 sh0 sh1 := rect_windowAdd hrect h0
    have hpy1 : pyShape full1 = (sh0, sh1) := pyShape_of_rect hrect1 h0
    have hcx1 : contained_in_full_array x.1 full1 = true := by
      rw [contained_congr (hpy1.trans hpy.symm)]
      exact hcx
    set full2 := windowAdd x.1 x.2.2 full1 with hfull2
    have hrect2 : rect full2 sh0 sh1 := rect_windowAdd hrect1 h0
    have hpy2 : pyShape full2 = (sh0, sh1) := pyShape_of_rect hrect2 h0
    have hstep : upsertLoop (x :: rest) full = upsertLoop rest full2 := by
      simp only [upsertLoop, add_contained _ _ _ hcx, add_contained _ _ _ hcx1]
    have hinv2 : ∀ i < sh0, ∀ j < sh1, mget full2 i j =
        (fun i j => others i j + contrib x.1 x.2.2 i j) i j +
          (rest.map fun y => contrib y.1 y.2.1 i j).sum := by
      intro i hi j hj
      have e2 : mget full2 i j = mget full1 i j + contrib x.1 x.2.2 i j :=
        mget_windowAdd hrect1 h0 hi hj
      have e1 : mget full1 i j = mget full i j + contrib x.1 (matNeg x.2.1) i j :=
        mget_windowAdd hrect h0 hi hj
      have e0 := hinv i hi j hj
      rw [List.map_cons, List.sum_cons] at e0
      rw [e2, e1, contrib_matNeg, e0]
      ring
    have hcont2 : ∀ y ∈ rest, contained_in_full_array y.1 full2 = true := by
      intro y hy
      rw [contained_congr (hpy2.trans hpy.symm)]
      exact hcont y (by simp [hy])
    obtain ⟨fullF, hrun, hrectF, hinvF⟩ :=
      ih full2 (fun i j => others i j + contrib x.1 x.2.2 i j)
        hrect2 hcont2 hinv2
    refine ⟨fullF, hstep.trans hrun, hrectF, ?_⟩
    intro i hi j hj
    rw [hinvF i hi j hj, List.map_cons, List.sum_cons]
    ring

/-- Witness for C1: a 1×1 beam at detector pixel (1,1) inside a 3×3
detector whose model is replaced from value 2 to value 5 on a background of
zeros; the updated detector carries exactly the new contribution. -/
theorem c1_upsert_exact_subtract_then_add_witness :
    ∃ full2, upsertLoop [(⟨1, 1, 1, 1⟩, [[2]], [[5]])]
        [[0, 0, 0], [0, 2, 0], [0, 0, 0]] = .ok full2 ∧
      rect full2 3 3 ∧
      ∀ i < 3, ∀ j < 3, mget full2 i j =
        (0 : ℚ) +
          (([(((⟨1, 1, 1, 1⟩ : BeamGeo), ([[2]] : Mat), ([[5]] : Mat)))].map
            fun x => contrib x.1 x.2.2 i j).sum) :=
  c1_upsert_exact_subtract_then_add
    [(⟨1, 1, 1, 1⟩, [[2]], [[5]])] [[0, 0, 0], [0, 2, 0], [0, 0, 0]]
    (fun _ _ => (0 : ℚ)) 3 3
    (by decide) (by decide)
    (by
      intro i hi j hj
      interval_cases i <;> interval_cases j <;> norm_num [mget, contrib])

/-- Successive differences, `np.diff`. -/
def diffList : List ℚ → List ℚ
  | a :: b :: rest => (b - a) :: diffList (b :: rest)
  | _ => []

/-- `dl = np.abs(np.append(lam[1] - lam[0], np.diff(lam)))`: the local
wavelength-bin widths, with the first difference duplicated. -/
def dlList (lam : List ℚ) : List ℚ :=
  match lam with
  | a :: b :: _ => ((b - a) :: diffList lam).map abs
  | _ => []

/-- The fixed physical unit constant `1.e-17` of the source. -/
def unitConstant : ℚ := 1 / 10 ^ 17

/-- `self.sensitivity_beam`: the throughput interpolated onto the anchor
wavelengths (`ysens`, output of the external `interp_conserve_c`), scaled by
the local wavelength-bin width and the `1.e-17` unit constant
(`ysens *= 1.e-17*dl`). -/
def sensitivity_beam (ysens lam : List ℚ) : List ℚ :=
  List.zipWith (fun y d => y * (unitConstant * d)) ysens (dlList lam)

/-- One scatter-add into the flattened output buffer.  Out-of-range indices
leave the buffer unchanged (the C kernel only writes inside the buffer). -/
def setAdd (buf : List ℚ) (idx : ℤ) (v : ℚ) : List ℚ :=
  if 0 ≤ idx then buf.set idx.toNat (buf.getD idx.toNat 0 + v) else buf

/-- Modelled from the spec: the Rasterizer scatter primitive
`utils_c.disperse.disperse_grism_object` is not part of the source file;
per §6 of the spec, for every thumbnail pixel belonging to `objId` in the
segmentation mask and every dispersion column `k`, the pixel's flux is
split between flattened positions `tgt` and `tgt + stride` in proportion
`(1 - row_frac, row_frac)`, scaled by the weight at that column; `tgt`
offsets the per-column `flat_index[k]` by the pixel's position relative to
the reference pixel `(y0, x0) = self.x0`. -/
def depositList (thumb seg : Mat) (objId : ℚ) (flatIdx : List ℤ)
    (yfrac w : List ℚ) (shy shx : ℕ) (y0 x0 stride : ℤ) : List (ℤ × ℚ) :=
  (List.range shy).flatMap fun i =>
    (List.range shx).flatMap fun j =>
      if mget seg i j = objId then
        (List.range flatIdx.length).flatMap fun k =>
          [(flatIdx.getD k 0 + ((i : ℤ) - y0) * stride + ((j : ℤ) - x0),
             mget thumb i j * w.getD k 0 * (1 - yfrac.getD k 0)),
           (flatIdx.getD k 0 + ((i : ℤ) - y0) * stride + ((j : ℤ) - x0)
              + stride,
             mget thumb i j * w.getD k 0 * yfrac.getD k 0)]
      else []

/-- Fold all scatter-adds into the output buffer. -/
def scatterAdds (ds : List (ℤ × ℚ)) (buf : List ℚ) : List ℚ :=
  ds.foldl (fun b d => setAdd b d.1 d.2) buf

/-- `self.total_flux = self.direct[self.seg == self.id].sum()`. -/
def total_flux (direct seg : Mat) (objId : ℚ) (shy shx : ℕ) : ℚ :=
  ((List.range shy).map fun i =>
    ((List.range shx).map fun j =>
      if mget seg i j = objId then mget direct i j else 0).sum).sum

/-- `compute_model` with `spectrum_1d = None` (flat f_lambda spectrum):
the weights are `sensitivity_beam`, the output buffer is zeroed with length
`sh_beam[0] * sh_beam[1] = shy * (shx + len(flat_index))`, the stride of one
output row is `sh_beam[1]`. -/
def computeModelFlat (thumb seg : Mat) (objId : ℚ) (flatIdx : List ℤ)
    (yfrac ysens lam : List ℚ) (shy shx : ℕ) (y0 x0 : ℤ) : List ℚ :=
  scatterAdds
    (depositList thumb seg objId flatIdx yfrac (sensitivity_beam ysens lam)
      shy shx y0 x0 ((shx : ℤ) + (flatIdx.length : ℤ)))
    (List.replicate (shy * (shx + flatIdx.length)) 0)

theorem length_setAdd (buf : List ℚ) (idx : ℤ) (v : ℚ) :
    (setAdd buf idx v).length = buf.length := by
  unfold setAdd
  split_ifs
  · exact List.length_set buf _ _
  · rfl

theorem sum_set_getD_add :
    ∀ (l : List ℚ) (n : ℕ) (v : ℚ), n < l.length →
      (l.set n (l.getD n 0 + v)).sum = l.sum + v := by
  intro l
  induction l with
  | nil =>
    intro n v h
    simp at h
  | cons a t ih =>
    intro n v h
    cases n with
    | zero =>
      simp only [List.getD_cons_zero, List.set_cons_zero, List.sum_cons]
      ring
    | succ m =>
      simp only [List.getD_cons_succ, List.set_cons_succ, List.sum_cons]
      rw [ih m v (by simpa using h)]
      ring

theorem sum_setAdd (buf : List ℚ) (idx : ℤ) (v : ℚ)
    (h0 : 0 ≤ idx) (h1 : idx.toNat < buf.length) :
    (setAdd buf idx v).sum = buf.sum + v := by
  unfold setAdd
  rw [if_pos h0]
  exact sum_set_getD_add buf idx.toNat v h1

theorem sum_scatterAdds (ds : List (ℤ × ℚ)) (buf : List ℚ)
    (h : ∀ d ∈ ds, 0 ≤ d.1 ∧ d.1.toNat < buf.length) :
    (scatterAdds ds buf).sum = buf.sum + (ds.map Prod.snd).sum := by
  induction ds generalizing buf with
  | nil => simp [scatterAdds]
  | cons d rest ih =>
    have hd := h d (by simp)
    have hrest : ∀ e ∈ rest, 0 ≤ e.1 ∧ e.1.toNat < (setAdd buf d.1 d.2).length := by
      rw [length_setAdd]
      intro e he
      exact h e (by simp [he])
    have hstep : scatterAdds (d :: rest) buf
        = scatterAdds rest (setAdd buf d.1 d.2) := rfl
    rw [hstep, ih _ hrest, sum_setAdd buf d.1 d.2 hd.1 hd.2,
      List.map_cons, List.sum_cons]
    ring

theorem sum_flatMapQ {α : Type} (l : List α) (f : α → List ℚ) :
    (l.flatMap f).sum = (l.map fun a => (f a).sum).sum := by
  rw [List.flatMap, List.sum_flatten, List.map_map]
  rfl

theorem map_range_getD {α : Type} (l : List α) (d : α) :
    (List.range l.length).map (fun k => l.getD k d) = l := by
  induction l with
  | nil => simp
  | cons a t ih =>
    rw [List.length_cons, List.range_succ_eq_map, List.map_cons, List.map_map]
    simp only [List.getD_cons_zero, Function.comp_def, List.getD_cons_succ]
    rw [ih]

theorem sum_values_depositList (thumb seg : Mat) (objId : ℚ)
    (flatIdx : List ℤ) (yfrac w : List ℚ) (shy shx : ℕ) (y0 x0 stride : ℤ) :
    ((depositList thumb seg objId flatIdx yfrac w shy shx y0 x0
        stride).map Prod.snd).sum
      = total_flux thumb seg objId shy shx *
          ((List.range flatIdx.length).map fun k => w.getD k 0).sum := by
  unfold depositList total_flux
  rw [List.map_flatMap, sum_flatMapQ]
  have houter : ∀ i ∈ List.range shy,
      ((((List.range shx).flatMap fun j =>
        if mget seg i j = objId then
          (List.range flatIdx.length).flatMap fun k =>
            [(flatIdx.getD k 0 + ((i : ℤ) - y0) * stride + ((j : ℤ) - x0),
               mget thumb i j * w.getD k 0 * (1 - yfrac.getD k 0)),
             (flatIdx.getD k 0 + ((i : ℤ) - y0) * stride + ((j : ℤ) - x0)
                + stride,
               mget thumb i j * w.getD k 0 * yfrac.getD k 0)]
        else []).map Prod.snd).sum)
      = (((List.range shx).map fun j =>
          if mget seg i j = objId then mget thumb i j else 0).sum) *
          ((List.range flatIdx.length).map fun k => w.getD k 0).sum := by
    intro i _
    rw [List.map_flatMap, sum_flatMapQ]
    have hinner : ∀ j ∈ List.range shx,
        (((if mget seg i j = objId then
            (List.range flatIdx.length).flatMap fun k =>
              [(flatIdx.getD k 0 + ((i : ℤ) - y0) * stride + ((j : ℤ) - x0),
                 mget thumb i j * w.getD k 0 * (1 - yfrac.getD k 0)),
               (flatIdx.getD k 0 + ((i : ℤ) - y0) * stride + ((j : ℤ) - x0)
                  + stride,
                 mget thumb i j * w.getD k 0 * yfrac.getD k 0)]
          else []).map Prod.snd).sum)
        = (if mget seg i j = objId then mget thumb i j else 0) *
            ((List.range flatIdx.length).map fun k => w.getD k 0).sum := by
      intro j _
      split_ifs with hseg
      · rw [List.map_flatMap, sum_flatMapQ]
        have hk : ∀ k ∈ List.range flatIdx.length,
            ((fun k =>
              ([(flatIdx.getD k 0 + ((i : ℤ) - y0) * stride + ((j : ℤ) - x0),
                  mget thumb i j * w.getD k 0 * (1 - yfrac.getD k 0)),
                (flatIdx.getD k 0 + ((i : ℤ) - y0) * stride + ((j : ℤ) - x0)
                   + stride,
                  mget thumb i j * w.getD k 0 * yfrac.getD k 0)].map
                    Prod.snd).sum) k)
            = (fun k => mget thumb i j * w.getD k 0) k := by
          intro k _
          simp only [List.map_cons, List.map_nil, List.sum_cons, List.sum_nil]
          ring
        rw [List.map_congr_left hk, List.sum_map_mul_left]
      · simp
    rw [List.map_congr_left hinner]
    rw [← List.sum_map_mul_right]
  rw [List.map_congr_left houter, ← List.sum_map_mul_right]

/-- Claim C2: for a flat-spectrum template, the total of the dispersed 2D
model equals the thumbnail's total flux inside the segmentation region of
the object id, times the sum of the per-anchor sensitivity curve
(interpolated throughput × local bin width × 1e-17), provided every
scatter-add lands inside the output buffer: dispersion neither creates nor
destroys flux. -/
theorem c2_flat_model_flux_conservation (thumb seg : Mat) (objId : ℚ)
    (flatIdx : List ℤ) (yfrac ysens lam : List ℚ) (shy shx : ℕ) (y0 x0 : ℤ)
    (hw : (sensitivity_beam ysens lam).length = flatIdx.length)
    (hin : ∀ d ∈ depositList thumb seg objId flatIdx yfrac
        (sensitivity_beam ysens lam) shy shx y0 x0
        ((shx : ℤ) + (flatIdx.length : ℤ)),
      0 ≤ d.1 ∧ d.1.toNat < shy * (shx + flatIdx.length)) :
    (computeModelFlat thumb seg objId flatIdx yfrac ysens lam
        shy shx y0 x0).sum
      = total_flux thumb seg objId shy shx *
          (sensitivity_beam ysens lam).sum := by
  unfold computeModelFlat
  rw [sum_scatterAdds _ _ (by simpa using hin)]
  rw [sum_values_depositList]
  rw [← hw, map_range_getD]
  simp

/-- Witness for C2 on a 2×1 thumbnail with flux 2 in the segmentation
region, two anchors, concrete sensitivity inputs. -/
theorem c2_flat_model_flux_conservation_witness :
    (computeModelFlat [[2], [0]] [[5], [0]] 5 [3, 4] [1/2, 0]
        [3, 4] [10, 12] 2 1 1 0).sum
      = total_flux [[2], [0]] [[5], [0]] 5 2 1 *
          (sensitivity_beam [3, 4] [10, 12]).sum :=
  c2_flat_model_flux_conservation [[2], [0]] [[5], [0]] 5 [3, 4] [1/2, 0]
    [3, 4] [10, 12] 2 1 1 0 (by decide) (by decide)

/-- Truncation toward zero: the semantics of `np.cast[int]` on floats. -/
def pyInt (q : ℚ) : ℤ := if 0 ≤ q then ⌊q⌋ else -⌊-q⌋

/-- `dyc = np.cast[int](self.ytrace_beam+20)-20+1` — the integer row offset
stored for each dispersion offset at construction ("Add/subtract 20 for
handling int of small negative numbers"), applied to one trace position. -/
def dycOf (y : ℚ) : ℤ := pyInt (y + 20) - 20 + 1

/-- Counterexample for C9: at trace position 1/2 the stored integer row
offset is 1, not `floor(1/2) = 0` — the `+1` after the bias trick shifts
every offset up by one pixel. -/
theorem c9_counterexample : dycOf (1/2) ≠ ⌊(1/2 : ℚ)⌋ := by
  norm_num [dycOf, pyInt]

/-- Claim C9 (amended): the stored integer row offset equals
`floor(trace position) + 1`; the bias trick `int(y+20)-20` itself computes
the floor correctly for every trace position greater than -20. -/
theorem c9_row_offset_is_floor_plus_one (y : ℚ) (h : -20 < y) :
    dycOf y = ⌊y⌋ + 1 := by
  unfold dycOf pyInt
  have h20 : (0 : ℚ) ≤ y + 20 := by linarith
  rw [if_pos h20]
  have h2 : ⌊y + (20 : ℚ)⌋ = ⌊y⌋ + 20 := by
    exact_mod_cast Int.floor_add_int y 20
  rw [h2]
  ring

/-- Witness for C9's amended statement at trace position 1/2. -/
theorem c9_row_offset_is_floor_plus_one_witness :
    dycOf (1/2) = ⌊(1/2 : ℚ)⌋ + 1 :=
  c9_row_offset_is_floor_plus_one (1/2) (by norm_num)

/-- The mutable state of a `GrismDisperser` needed by `compute_model`:
identity, thumbnail geometry, the immutable dispersion tables built at
construction, and the mutable model buffer / last template. -/
structure GrismDisperser where
  id : ℚ
  sh : ℕ × ℕ
  direct : Mat
  seg : Mat
  flat_index : List ℤ
  yfrac_beam : List ℚ
  sensitivity_beam : List ℚ
  lam_beam : List ℚ
  x0 : ℤ × ℤ
  sh_beam : ℕ × ℕ
  modelf : List ℚ
  spectrum_1d : Option (List ℚ × List ℚ)

/-- The Python return value of `compute_model`: `False` on shape mismatch,
`True` for an in-place computation, or the output array when
`in_place=False`. -/
inductive CMResult where
  | rFalse : CMResult
  | rTrue : CMResult
  | rArr : List ℚ → CMResult
deriving DecidableEq

/-- `GrismDisperser.compute_model(id, thumb, spectrum_1d, in_place,
outdata)`, in source order: (1) an explicit `id` overwrites `self.id`,
`None` keeps it; (2) with `in_place` the template is stored in
`self.spectrum_1d`; (3) the template scaling is interpolated by the
external `interp_conserve_c` (parameter `interpC`; the argsort/scatter
permutation of the source is absorbed into this abstract parameter) and
multiplied into the sensitivity; (4) with `in_place` the model buffer is
zeroed BEFORE the thumb shape check; (5) a `thumb` of the wrong shape
returns `False`; (6) otherwise the Rasterizer scatters the dispersed flux
into the buffer. -/
def compute_model (interpC : List ℚ → List ℚ → List ℚ → List ℚ)
    (s : GrismDisperser) (idArg : Option ℚ) (thumbArg : Option Mat)
    (spectrumArg : Option (List ℚ × List ℚ)) (inPlace : Bool)
    (outdataArg : Option (List ℚ)) : GrismDisperser × CMResult :=
  let theId := match idArg with | none => s.id | some v => v
  let s1 := { s with id := theId }
  let s2 := if inPlace then { s1 with spectrum_1d := spectrumArg } else s1
  let scale : List ℚ := match spectrumArg with
    | none => List.replicate s.sensitivity_beam.length 1
    | some (xs, ys) => interpC s.lam_beam xs ys
  let weight := List.zipWith (· * ·) s.sensitivity_beam scale
  let zerobuf : List ℚ := List.replicate s.modelf.length 0
  let buf0 := if inPlace then zerobuf else outdataArg.getD zerobuf
  let s3 := if inPlace then { s2 with modelf := zerobuf } else s2
  let run : Mat → GrismDisperser × CMResult := fun thumb =>
    let out := scatterAdds
      (depositList thumb s.seg theId s.flat_index s.yfrac_beam weight
        s.sh.1 s.sh.2 s.x0.1 s.x0.2 (s.sh_beam.2 : ℤ)) buf0
    if inPlace then ({ s3 with modelf := out }, CMResult.rTrue)
    else (s3, CMResult.rArr out)
  match thumbArg with
  | some t => if pyShape t ≠ s.sh then (s3, CMResult.rFalse) else run t
  | none => run s.direct

/-- Claim C10: `compute_model` with an explicit `id` permanently overwrites
the stored object id; with `id` omitted (`None`) the stored id is
unchanged; and after an explicit-id call, a later call with `id` omitted
behaves exactly like a call with that id. -/
theorem c10_compute_model_id_overwrite
    (interpC : List ℚ → List ℚ → List ℚ → List ℚ) (s : GrismDisperser)
    (i : ℚ) (thumbArg : Option Mat) (spectrumArg : Option (List ℚ × List ℚ))
    (inPlace : Bool) (outdataArg : Option (List ℚ)) (t2 : Option Mat)
    (sp2 : Option (List ℚ × List ℚ)) (ip2 : Bool) (od2 : Option (List ℚ)) :
    (compute_model interpC s (some i) thumbArg spectrumArg inPlace
        outdataArg).1.id = i ∧
    (compute_model interpC s none thumbArg spectrumArg inPlace
        outdataArg).1.id = s.id ∧
    compute_model interpC
        (compute_model interpC s (some i) none none true none).1
        none t2 sp2 ip2 od2
      = compute_model interpC
          (compute_model interpC s (some i) none none true none).1
          (some i) t2 sp2 ip2 od2 := by
  have hgen : ∀ (s' : GrismDisperser) (ia : Option ℚ) (ta : Option Mat)
      (spa : Option (List ℚ × List ℚ)) (ip : Bool) (oda : Option (List ℚ)),
      (compute_model interpC s' ia ta spa ip oda).1.id
        = (match ia with | none => s'.id | some v => v) := by
    intro s' ia ta spa ip oda
    unfold compute_model
    rcases ta with _ | t
    · cases ip <;> rfl
    · cases ip <;> (by_cases hsh : pyShape t ≠ s'.sh) <;> simp [hsh]
  have hnone : ∀ (s' : GrismDisperser),
      compute_model interpC s' none t2 sp2 ip2 od2
        = compute_model interpC s' (some s'.id) t2 sp2 ip2 od2 := by
    intro s'
    rfl
  refine ⟨hgen s (some i) _ _ _ _, hgen s none _ _ _ _, ?_⟩
  rw [hnone, hgen s (some i) none none true none]

/-- A small concrete disperser state with a nonzero stored model. -/
def csDemo : GrismDisperser :=
  { id := 0, sh := (1, 1), direct := [[0]], seg := [[0]], flat_index := [],
    yfrac_beam := [], sensitivity_beam := [], lam_beam := [], x0 := (0, 0),
    sh_beam := (1, 1), modelf := [1, 2], spectrum_1d := none }

/-- Counterexample for C5: an in-place `compute_model` call with a
wrong-shape thumbnail returns `False`, but the stored 2D model does NOT
hold its previous values — `self.modelf *= 0` runs before the shape check,
so the stored model has been zeroed. -/
theorem c5_counterexample :
    (compute_model (fun _ _ _ => []) csDemo none (some [[1], [2]]) none
        true none).2 = CMResult.rFalse ∧
      (compute_model (fun _ _ _ => []) csDemo none (some [[1], [2]]) none
        true none).1.modelf ≠ csDemo.modelf := by
  decide

/-- Claim C5 (amended): a wrong-shape alternate thumbnail makes
`compute_model` return `False` and abort the dispersion, but mutation is
not fully avoided: with `in_place=True` the stored model has already been
zeroed before the shape check (it holds zeros, not its previous values);
with `in_place=False` the stored model is left unchanged. -/
theorem c5_shape_mismatch_zeroes_model
    (interpC : List ℚ → List ℚ → List ℚ → List ℚ) (s : GrismDisperser)
    (t : Mat) (spectrumArg : Option (List ℚ × List ℚ))
    (outdataArg : Option (List ℚ)) (hmis : pyShape t ≠ s.sh) :
    ((compute_model interpC s none (some t) spectrumArg true
        outdataArg).2 = CMResult.rFalse ∧
      (compute_model interpC s none (some t) spectrumArg true
        outdataArg).1.modelf = List.replicate s.modelf.length 0) ∧
    ((compute_model interpC s none (some t) spectrumArg false
        outdataArg).2 = CMResult.rFalse ∧
      (compute_model interpC s none (some t) spectrumArg false
        outdataArg).1.modelf = s.modelf) := by
  refine ⟨⟨?_, ?_⟩, ⟨?_, ?_⟩⟩ <;> simp [compute_model, hmis]

/-- Witness for C5's amended statement on `csDemo` with a 2×1 thumbnail. -/
theorem c5_shape_mismatch_zeroes_model_witness :
    ((compute_model (fun _ _ _ => []) csDemo none (some [[1], [2]]) none
        true none).2 = CMResult.rFalse ∧
      (compute_model (fun _ _ _ => []) csDemo none (some [[1], [2]]) none
        true none).1.modelf = List.replicate csDemo.modelf.length 0) ∧
    ((compute_model (fun _ _ _ => []) csDemo none (some [[1], [2]]) none
        false none).2 = CMResult.rFalse ∧
      (compute_model (fun _ _ _ => []) csDemo none (some [[1], [2]]) none
        false none).1.modelf = csDemo.modelf) :=
  c5_shape_mismatch_zeroes_model (fun _ _ _ => []) csDemo [[1], [2]]
    none none (by decide)

/-- `m[m < 0] = 0`: clip negative model values to zero. -/
def clipNeg (m : Mat) : Mat := m.map (List.map fun v => if v < 0 then 0 else v)

/-- `array.sum(axis=0)` at column `j`. -/
def colSum (m : Mat) (j : ℕ) : ℚ := (m.map fun row => row.getD j 0).sum

/-- `self.optimal_profile = m/m.sum(axis=0)` built from the clipped
flat-spectrum model. -/
def profileOf (m : Mat) (n nx : ℕ) : Mat :=
  buildMat n nx fun i j => mget (clipNeg m) i j / colSum (clipNeg m) j

/-- `num = self.optimal_profile*data*ivar`. -/
def optNum (prof data ivar : Mat) (n nx : ℕ) : Mat :=
  buildMat n nx fun i j => mget prof i j * mget data i j * mget ivar i j

/-- `den = self.optimal_profile**2*ivar`. -/
def optDen (prof ivar : Mat) (n nx : ℕ) : Mat :=
  buildMat n nx fun i j => mget prof i j ^ 2 * mget ivar i j

/-- scipy `reflect` boundary handling: indices are reflected into `[0, n)`
with pattern `(d c b a | a b c d | d c b a)`. -/
def reflIdx (n : ℕ) (t : ℤ) : ℕ :=
  if n = 0 then 0
  else
    let m := (t % (2 * n)).toNat
    if m < n then m else 2 * n - 1 - m

/-- One output value of `scipy.ndimage.convolve` with a uniform kernel of
width `bin` whose entries all equal `kval`, at position `t`. -/
def convUniform (v : List ℚ) (bin : ℕ) (kval : ℚ) (t : ℕ) : ℚ :=
  ((List.range bin).map fun s =>
    kval * v.getD (reflIdx v.length ((t : ℤ) + ((bin / 2 : ℕ) : ℤ) - (s : ℤ))) 0).sum

/-- Python subsampling `a[start::step]` expressed as the kept indices. -/
def subsampleIdx (len start step : ℕ) : List ℕ :=
  (List.range len).filter fun t => start ≤ t ∧ (t - start) % step = 0

/-- `GrismDisperser.optimal_extract(data, bin, ivar)`: Horne extraction.
The spatial profile comes from the clipped, column-normalized flat-spectrum
model (`flatModel` stands for `self.compute_model(id=self.id,
in_place=False)`); `data`/`ivar` shape mismatches return `None` (the
source's `False`); per column, flux = Σ(profile·data·ivar)/Σ(profile²·ivar)
and variance = 1/Σ(profile²·ivar); with `bin > 1` flux and variance are
convolved with the uniform kernels `kern` and `kern**2` and subsampled with
`[bin/2::bin]`.  The source reports `rms = sqrt(var)` with
`rms[var == 0] = 0`; over `ℚ` (where `1/0 = 0`) the reported variance
already carries that zero-fix, so the variance is returned. -/
def optimal_extract (flatModel data ivar : Mat) (lam : List ℚ)
    (n nx bin : ℕ) : Option (List ℚ × List ℚ × List ℚ) :=
  if pyShape data ≠ (n, nx) then none
  else if pyShape ivar ≠ (n, nx) then none
  else
    let prof := profileOf flatModel n nx
    let fluxRaw := (List.range nx).map fun j =>
      colSum (optNum prof data ivar n nx) j / colSum (optDen prof ivar n nx) j
    let varRaw := (List.range nx).map fun j =>
      1 / colSum (optDen prof ivar n nx) j
    if 1 < bin then
      some ((subsampleIdx lam.length (bin / 2) bin).map fun t => lam.getD t 0,
        (subsampleIdx nx (bin / 2) bin).map fun t =>
          convUniform fluxRaw bin (1 / (bin : ℚ)) t,
        (subsampleIdx nx (bin / 2) bin).map fun t =>
          convUniform varRaw bin ((1 / (bin : ℚ)) ^ 2) t)
    else some (lam, fluxRaw, varRaw)

theorem mget_mapQ (f : ℚ → ℚ) (hf : f 0 = 0) (A : Mat) (i j : ℕ) :
    mget (A.map (List.map f)) i j = f (mget A i j) := by
  unfold mget
  rcases h : A[i]? with _ | row
  · have h1 : (A.map (List.map f)).getD i [] = [] := by
      rw [List.getD_eq_getElem?_getD, List.getElem?_map, h]
      rfl
    have h2 : A.getD i [] = [] := by
      rw [List.getD_eq_getElem?_getD, h]
      rfl
    rw [h1, h2]
    have h3 : ([] : List ℚ).getD j 0 = 0 := rfl
    rw [h3, hf]
  · have h1 : (A.map (List.map f)).getD i [] = row.map f := by
      rw [List.getD_eq_getElem?_getD, List.getElem?_map, h]
      rfl
    have h2 : A.getD i [] = row := by
      rw [List.getD_eq_getElem?_getD, h]
      rfl
    rw [h1, h2]
    rcases h3 : row[j]? with _ | v
    · have h4 : (row.map f).getD j 0 = 0 := by
        rw [List.getD_eq_getElem?_getD, List.getElem?_map, h3]
        rfl
      have h5 : row.getD j 0 = 0 := by
        rw [List.getD_eq_getElem?_getD, h3]
        rfl
      rw [h4, h5, hf]
    · have h4 : (row.map f).getD j 0 = f v := by
        rw [List.getD_eq_getElem?_getD, List.getElem?_map, h3]
        rfl
      have h5 : row.getD j 0 = v := by
        rw [List.getD_eq_getElem?_getD, h3]
        rfl
      rw [h4, h5]

theorem mget_clipNeg (m : Mat) (i j : ℕ) :
    mget (clipNeg m) i j
      = if mget m i j < 0 then 0 else mget m i j :=
  mget_mapQ _ (by norm_num) m i j

theorem getD_map_range {n j : ℕ} (f : ℕ → ℚ) (hj : j < n) :
    ((List.range n).map f).getD j 0 = f j := by
  rw [List.getD_eq_getElem?_getD, List.getElem?_map, List.getElem?_range hj]
  rfl

theorem colSum_nonneg_of_clip (m : Mat) (j : ℕ) :
    0 ≤ colSum (clipNeg m) j := by
  unfold colSum clipNeg
  apply List.sum_nonneg
  intro x hx
  rw [List.map_map] at hx
  simp only [List.mem_map, Function.comp_def] at hx
  obtain ⟨row, _, rfl⟩ := hx
  rw [List.getD_eq_getElem?_getD, List.getElem?_map]
  rcases row[j]? with _ | v
  · simp
  · show (0 : ℚ) ≤ if v < 0 then 0 else v
    split_ifs with h
    · exact le_refl 0
    · linarith [not_lt.mp h]

theorem colSum_eq_range {A : Mat} {n nx : ℕ} (hrect : rect A n nx) (j : ℕ) :
    colSum A j = ((List.range n).map fun i => mget A i j).sum := by
  unfold colSum mget
  have h1 : (List.range n).map (fun i => (A.getD i []).getD j 0)
      = (List.range A.length).map ((fun row => row.getD j 0) ∘ fun k => A.getD k []) := by
    rw [hrect.1]
    rfl
  rw [h1, ← List.map_map, map_range_getD]

theorem sum_map_div {α : Type} (l : List α) (f : α → ℚ) (c : ℚ) :
    (l.map fun x => f x / c).sum = (l.map f).sum / c := by
  simp only [div_eq_mul_inv]
  exact List.sum_map_mul_right l f c⁻¹

/-- The claim-side specification of `optimal_extract` (claim C6): the
profile has negatives clipped to zero and unit column sums; per column
flux = Σ(profile·data·ivar)/Σ(profile²·ivar) and variance =
1/Σ(profile²·ivar), reported as zero where the denominator is zero; with
`bin > 1` flux and variance are boxcar-convolved with uniform kernels of
width `bin` and subsampled at `[bin/2::bin]`. -/
def OptimalExtractClaim (flatModel data ivar : Mat) (lam : List ℚ)
    (n nx bin : ℕ) : Prop :=
  ∃ wave flux varr,
    optimal_extract flatModel data ivar lam n nx bin
      = some (wave, flux, varr) ∧
    (∀ i < n, ∀ j < nx, 0 ≤ mget (profileOf flatModel n nx) i j) ∧
    (∀ i < n, ∀ j < nx, mget (profileOf flatModel n nx) i j
      = max (mget flatModel i j) 0 / colSum (clipNeg flatModel) j) ∧
    (∀ j < nx, colSum (clipNeg flatModel) j ≠ 0 →
      colSum (profileOf flatModel n nx) j = 1) ∧
    (bin ≤ 1 → wave = lam ∧ ∀ j < nx,
      flux.getD j 0 =
        colSum (optNum (profileOf flatModel n nx) data ivar n nx) j /
          colSum (optDen (profileOf flatModel n nx) ivar n nx) j ∧
      varr.getD j 0 =
        1 / colSum (optDen (profileOf flatModel n nx) ivar n nx) j ∧
      (colSum (optDen (profileOf flatModel n nx) ivar n nx) j = 0 →
        varr.getD j 0 = 0)) ∧
    (1 < bin →
      wave = ((subsampleIdx lam.length (bin / 2) bin).map fun t =>
        lam.getD t 0) ∧
      flux = ((subsampleIdx nx (bin / 2) bin).map fun t =>
        convUniform ((List.range nx).map fun j =>
          colSum (optNum (profileOf flatModel n nx) data ivar n nx) j /
            colSum (optDen (profileOf flatModel n nx) ivar n nx) j)
          bin (1 / (bin : ℚ)) t) ∧
      varr = ((subsampleIdx nx (bin / 2) bin).map fun t =>
        convUniform ((List.range nx).map fun j =>
          1 / colSum (optDen (profileOf flatModel n nx) ivar n nx) j)
          bin ((1 / (bin : ℚ)) ^ 2) t))

/-- Claim C6: Horne-style optimal extraction satisfies the claimed
profile/flux/variance/binning formulas. -/
theorem c6_optimal_extract_formulas (flatModel data ivar : Mat)
    (lam : List ℚ) (n nx bin : ℕ)
    (hd : pyShape data = (n, nx)) (hv : pyShape ivar = (n, nx))
    (hrect : rect flatModel n nx) :
    OptimalExtractClaim flatModel data ivar lam n nx bin := by
  have hprof_clip : ∀ i < n, ∀ j < nx,
      mget (profileOf flatModel n nx) i j
        = max (mget flatModel i j) 0 / colSum (clipNeg flatModel) j := by
    intro i hi j hj
    unfold profileOf
    rw [mget_buildMat _ hi hj, mget_clipNeg]
    congr 1
    split_ifs with h
    · exact (max_eq_right (le_of_lt h)).symm
    · exact (max_eq_left (not_lt.mp h)).symm
  have hprof_nonneg : ∀ i < n, ∀ j < nx,
      0 ≤ mget (profileOf flatModel n nx) i j := by
    intro i hi j hj
    rw [hprof_clip i hi j hj]
    exact div_nonneg (le_max_right _ _) (colSum_nonneg_of_clip _ _)
  have hrect_clip : rect (clipNeg flatModel) n nx := by
    obtain ⟨h1, h2⟩ := hrect
    refine ⟨by simpa [clipNeg] using h1, ?_⟩
    intro row hrow
    simp only [clipNeg, List.mem_map] at hrow
    obtain ⟨r0, hr0, rfl⟩ := hrow
    simpa using h2 r0 hr0
  have hprof_unit : ∀ j < nx, colSum (clipNeg flatModel) j ≠ 0 →
      colSum (profileOf flatModel n nx) j = 1 := by
    intro j hj hS
    have hrectP : rect (profileOf flatModel n nx) n nx := rect_buildMat n nx _
    rw [colSum_eq_range hrectP j]
    have hcell : ∀ i ∈ List.range n,
        mget (profileOf flatModel n nx) i j
          = (fun i => mget (clipNeg flatModel) i j /
              colSum (clipNeg flatModel) j) i := by
      intro i hi
      rw [List.mem_range] at hi
      unfold profileOf
      rw [mget_buildMat _ hi hj]
    rw [List.map_congr_left hcell, sum_map_div, ← colSum_eq_range hrect_clip j,
      div_self hS]
  unfold OptimalExtractClaim
  by_cases hbin : 1 < bin
  · have hres : optimal_extract flatModel data ivar lam n nx bin
        = some ((subsampleIdx lam.length (bin / 2) bin).map fun t =>
            lam.getD t 0,
          (subsampleIdx nx (bin / 2) bin).map fun t =>
            convUniform ((List.range nx).map fun j =>
              colSum (optNum (profileOf flatModel n nx) data ivar n nx) j /
                colSum (optDen (profileOf flatModel n nx) ivar n nx) j)
              bin (1 / (bin : ℚ)) t,
          (subsampleIdx nx (bin / 2) bin).map fun t =>
            convUniform ((List.range nx).map fun j =>
              1 / colSum (optDen (profileOf flatModel n nx) ivar n nx) j)
              bin ((1 / (bin : ℚ)) ^ 2) t) := by
      unfold optimal_extract
      rw [hd, hv]
      simp [hbin]
    refine ⟨_, _, _, hres, hprof_nonneg, hprof_clip, hprof_unit, ?_, ?_⟩
    · intro hle
      omega
    · intro _
      exact ⟨rfl, rfl, rfl⟩
  · have hres : optimal_extract flatModel data ivar lam n nx bin
        = some (lam,
          (List.range nx).map fun j =>
            colSum (optNum (profileOf flatModel n nx) data ivar n nx) j /
              colSum (optDen (profileOf flatModel n nx) ivar n nx) j,
          (List.range nx).map fun j =>
            1 / colSum (optDen (profileOf flatModel n nx) ivar n nx) j) := by
      unfold optimal_extract
      rw [hd, hv]
      simp [hbin]
    refine ⟨_, _, _, hres, hprof_nonneg, hprof_clip, hprof_unit, ?_, ?_⟩
    · intro _
      refine ⟨rfl, ?_⟩
      intro j hj
      refine ⟨getD_map_range _ hj, getD_map_range _ hj, ?_⟩
      intro hden
      rw [getD_map_range _ hj, hden]
      simp
    · intro h1
      omega

/-- Witness for C6 on a concrete 2×2 extraction with `bin = 0`. -/
theorem c6_optimal_extract_formulas_witness :
    OptimalExtractClaim [[1, -1], [1, 1]] [[2, 2], [4, 6]]
      [[1, 1], [1, 1]] [7, 8] 2 2 0 :=
  c6_optimal_extract_formulas [[1, -1], [1, 1]] [[2, 2], [4, 6]]
    [[1, 1], [1, 1]] [7, 8] 2 2 0 (by decide) (by decide) (by decide)

/-- A rest-frame spectrum template `[wave, flux]`. -/
structure SpecTemplate where
  wave : List ℚ
  flux : List ℚ

/-- Modelled from the spec: `utils.SpectrumTemplate.zscale(z, 1.)` is not in
the source file; per the spec ("redshift each template") the template
wavelengths are scaled by `(1+z)`. -/
def zscaleWave (z : ℚ) (w : List ℚ) : List ℚ := w.map fun x => x * (1 + z)

/-- `np.max` of a nonempty list (0 for the empty list). -/
def listMax : List ℚ → ℚ
  | [] => 0
  | a :: r => r.foldl max a

/-- Boolean-mask selection `v[mask]` of a flattened array. -/
def maskRows (v : List ℚ) (mask : List Bool) : List ℚ :=
  (v.zip mask).filterMap fun p => if p.2 then some p.1 else none

/-- `temp_model[self.fit_mask].max()`. -/
def maskedMax (v : List ℚ) (mask : List Bool) : ℚ := listMax (maskRows v mask)

/-- `out_coeffs = np.zeros(NTEMP); out_coeffs[ok_temp] = coeffs`: walk the
Boolean mask, consuming solver outputs at `True` positions and writing 0 at
`False` positions. -/
def fillMasked : List Bool → List ℚ → List ℚ
  | [], _ => []
  | false :: ok, vs => 0 :: fillMasked ok vs
  | true :: ok, [] => 0 :: fillMasked ok []
  | true :: ok, v :: vs => v :: fillMasked ok vs

/-- Column selection `A[self.fit_mask, :][:, ok_temp]` (as a list of kept,
row-masked columns). -/
def selCols (A : List (List ℚ)) (ok : List Bool) (mask : List Bool) :
    List (List ℚ) :=
  (A.zip ok).filterMap fun p => if p.2 then some (maskRows p.1 mask) else none

/-- Number of `True` entries of `ok` before position `k`: the position of
column `k` among the kept columns. -/
def rankOf (ok : List Bool) (k : ℕ) : ℕ := ((ok.take k).filter id).length

/-- One template's design column and its `ok_temp` flag in `fit_at_z`:
redshift the wavelengths; if `temp.wave[0] > lam_beam[-1]` or
`temp.wave[-1] < lam_beam[0]`, append `flat_flam` with the flag cleared;
otherwise compute the dispersed model and clear the flag when
`temp_model[fit_mask].max()/temp_model.max() < 0.2`. -/
def templateColumn (flatFlam lamBeam : List ℚ) (fitMask : List Bool)
    (dispModel : List ℚ → List ℚ → List ℚ) (z : ℚ) (t : SpecTemplate) :
    List ℚ × Bool :=
  let w := zscaleWave z t.wave
  if lamBeam.getLastD 0 < w.headD 0 ∨ w.getLastD 0 < lamBeam.headD 0 then
    (flatFlam, false)
  else
    let tm := dispModel w t.flux
    (tm, !(decide (maskedMax tm fitMask / listMax tm < 1/5)))

/-- `BeamCutout.fit_at_z`: concatenate the polynomial-continuum columns and
the per-template columns, solve the masked least-squares system on the kept
columns only (the solver `np.linalg.lstsq` is an abstract parameter), and
zero-fill the coefficients of excluded columns.  Returns
`(A, out_coeffs, ok_temp)`. -/
def fit_at_z (Apoly : List (List ℚ)) (flatFlam lamBeam : List ℚ)
    (fitMask : List Bool) (scif : List ℚ)
    (dispModel : List ℚ → List ℚ → List ℚ)
    (solver : List (List ℚ) → List ℚ → List ℚ) (z : ℚ)
    (templates : List SpecTemplate) :
    List (List ℚ) × List ℚ × List Bool :=
  let cols := templates.map (templateColumn flatFlam lamBeam fitMask
    dispModel z)
  let A := Apoly ++ cols.map Prod.fst
  let okTemp := List.replicate Apoly.length true ++ cols.map Prod.snd
  (A,
   fillMasked okTemp (solver (selCols A okTemp fitMask)
     (maskRows scif fitMask)),
   okTemp)

theorem fillMasked_getD_false :
    ∀ (ok : List Bool) (vs : List ℚ) (k : ℕ),
      ok.getD k false = false → (fillMasked ok vs).getD k 0 = 0 := by
  intro ok
  induction ok with
  | nil =>
    intro vs k _
    rfl
  | cons b ok ih =>
    intro vs k hk
    cases b with
    | false =>
      cases k with
      | zero => rfl
      | succ m => exact ih vs m hk
    | true =>
      cases k with
      | zero => simp at hk
      | succ m =>
        cases vs with
        | nil => exact ih [] m hk
        | cons v vs => exact ih vs m hk

theorem fillMasked_getD_true :
    ∀ (ok : List Bool) (vs : List ℚ) (k : ℕ),
      ok.getD k false = true →
      (fillMasked ok vs).getD k 0 = vs.getD (rankOf ok k) 0 := by
  intro ok
  induction ok with
  | nil =>
    intro vs k hk
    simp [List.getD] at hk
  | cons b ok ih =>
    intro vs k hk
    cases b with
    | false =>
      cases k with
      | zero => simp at hk
      | succ m =>
        have : rankOf (false :: ok) (m + 1) = rankOf ok m := by
          simp [rankOf, List.take_succ_cons]
        rw [this]
        exact ih vs m hk
    | true =>
      cases k with
      | zero =>
        cases vs with
        | nil => rfl
        | cons v vs => rfl
      | succ m =>
        have hrank : rankOf (true :: ok) (m + 1) = rankOf ok m + 1 := by
          simp [rankOf, List.take_succ_cons]
        rw [hrank]
        cases vs with
        | nil =>
          have h0 : (fillMasked (true :: ok) []).getD (m + 1) 0
              = (fillMasked ok []).getD m 0 := rfl
          rw [h0, ih [] m hk]
          rfl
        | cons v vs => exact ih vs m hk

theorem headD_mem {l : List ℚ} (h : l ≠ []) (d : ℚ) : l.headD d ∈ l := by
  cases l with
  | nil => exact absurd rfl h
  | cons a t => simp

theorem getLastD_mem {l : List ℚ} (h : l ≠ []) (d : ℚ) :
    l.getLastD d ∈ l := by
  cases l with
  | nil => exact absurd rfl h
  | cons a t =>
    rw [List.getLastD_eq_getLast?, List.getLast?_eq_getLast (a :: t) (by simp)]
    simp only [Option.getD_some]
    exact List.getLast_mem _

/-- Claim C7: every template whose redshifted wavelength range is disjoint
from the beam's wavelength coverage, or whose dispersed model's peak inside
the fit mask is below 20% of its overall (positive) peak, has its `ok_temp`
flag cleared and receives exactly zero in the returned coefficient vector;
every kept column's coefficient is the solver output for its rank among the
kept columns (zero-filling touches only excluded positions). -/
theorem c7_excluded_template_gets_zero (Apoly : List (List ℚ))
    (flatFlam lamBeam : List ℚ) (fitMask : List Bool) (scif : List ℚ)
    (dispModel : List ℚ → List ℚ → List ℚ)
    (solver : List (List ℚ) → List ℚ → List ℚ) (z : ℚ)
    (templates : List SpecTemplate) (i : ℕ) (hi : i < templates.length)
    (hlam : lamBeam ≠ []) (hwave : (templates.get ⟨i, hi⟩).wave ≠ [])
    (hexc :
      (∀ w ∈ zscaleWave z (templates.get ⟨i, hi⟩).wave,
        ∀ l ∈ lamBeam, w < l) ∨
      (∀ w ∈ zscaleWave z (templates.get ⟨i, hi⟩).wave,
        ∀ l ∈ lamBeam, l < w) ∨
      (0 < listMax (dispModel (zscaleWave z (templates.get ⟨i, hi⟩).wave)
          (templates.get ⟨i, hi⟩).flux) ∧
        maskedMax (dispModel (zscaleWave z (templates.get ⟨i, hi⟩).wave)
            (templates.get ⟨i, hi⟩).flux) fitMask
          < listMax (dispModel (zscaleWave z (templates.get ⟨i, hi⟩).wave)
              (templates.get ⟨i, hi⟩).flux) / 5)) :
    (fit_at_z Apoly flatFlam lamBeam fitMask scif dispModel solver z
        templates).2.2.getD (Apoly.length + i) false = false ∧
    (fit_at_z Apoly flatFlam lamBeam fitMask scif dispModel solver z
        templates).2.1.getD (Apoly.length + i) 0 = 0 ∧
    ∀ k, (fit_at_z Apoly flatFlam lamBeam fitMask scif dispModel solver z
          templates).2.2.getD k false = true →
      (fit_at_z Apoly flatFlam lamBeam fitMask scif dispModel solver z
          templates).2.1.getD k 0
        = (solver
            (selCols (fit_at_z Apoly flatFlam lamBeam fitMask scif dispModel
                solver z templates).1
              (fit_at_z Apoly flatFlam lamBeam fitMask scif dispModel solver
                z templates).2.2 fitMask)
            (maskRows scif fitMask)).getD
          (rankOf (fit_at_z Apoly flatFlam lamBeam fitMask scif dispModel
              solver z templates).2.2 k) 0 := by
  have hok : (fit_at_z Apoly flatFlam lamBeam fitMask scif dispModel solver
      z templates).2.2
      = List.replicate Apoly.length true ++
        (templates.map (templateColumn flatFlam lamBeam fitMask dispModel
          z)).map Prod.snd := rfl
  have hco : (fit_at_z Apoly flatFlam lamBeam fitMask scif dispModel solver
      z templates).2.1
      = fillMasked
          ((fit_at_z Apoly flatFlam lamBeam fitMask scif dispModel solver z
            templates).2.2)
          (solver
            (selCols (fit_at_z Apoly flatFlam lamBeam fitMask scif dispModel
                solver z templates).1
              (fit_at_z Apoly flatFlam lamBeam fitMask scif dispModel solver
                z templates).2.2 fitMask)
            (maskRows scif fitMask)) := rfl
  have hflag : (templateColumn flatFlam lamBeam fitMask dispModel z
      (templates.get ⟨i, hi⟩)).2 = false := by
    unfold templateColumn
    set w := zscaleWave z (templates.get ⟨i, hi⟩).wave with hwdef
    have hwne : w ≠ [] := by
      rw [hwdef]
      unfold zscaleWave
      simpa using hwave
    by_cases hcond : lamBeam.getLastD 0 < w.headD 0 ∨
        w.getLastD 0 < lamBeam.headD 0
    · rw [if_pos hcond]
    · rcases hexc with hbelow | habove | ⟨hpos, hlow⟩
      · exfalso
        exact hcond (Or.inr (hbelow _ (getLastD_mem hwne 0) _
          (headD_mem hlam 0)))
      · exfalso
        exact hcond (Or.inl (habove _ (headD_mem hwne 0) _
          (getLastD_mem hlam 0)))
      · rw [if_neg hcond]
        have hdiv : maskedMax (dispModel w (templates.get ⟨i, hi⟩).flux)
            fitMask / listMax (dispModel w (templates.get ⟨i, hi⟩).flux)
            < 1/5 := by
          rw [div_lt_iff₀ hpos]
          calc maskedMax (dispModel w (templates.get ⟨i, hi⟩).flux) fitMask
              < listMax (dispModel w (templates.get ⟨i, hi⟩).flux) / 5 :=
                hlow
            _ = 1/5 * listMax (dispModel w (templates.get ⟨i, hi⟩).flux) :=
                by ring
        simpa using hdiv
  have hfalse : (fit_at_z Apoly flatFlam lamBeam fitMask scif dispModel
      solver z templates).2.2.getD (Apoly.length + i) false = false := by
    rw [hok, List.getD_append_right _ _ _ _ (by simp)]
    simp only [List.length_replicate, Nat.add_sub_cancel_left]
    have hmi : ((templates.map (templateColumn flatFlam lamBeam fitMask
        dispModel z)).map Prod.snd).getD i false
        = (templateColumn flatFlam lamBeam fitMask dispModel z
            (templates.get ⟨i, hi⟩)).2 := by
      rw [List.getD_eq_getElem?_getD, List.getElem?_map, List.getElem?_map,
        List.getElem?_eq_getElem hi]
      rfl
    rw [hmi, hflag]
  refine ⟨hfalse, ?_, ?_⟩
  · rw [hco]
    exact fillMasked_getD_false _ _ _ hfalse
  · intro k hk
    rw [hco]
    exact fillMasked_getD_true _ _ _ hk

/-- Witness for C7: a single template lying entirely redward of the beam
coverage is excluded and its coefficient is exactly zero. -/
theorem c7_excluded_template_gets_zero_witness :
    (fit_at_z [[1, 1]] [1, 1] [5, 6] [true, true] [1, 2]
        (fun _ _ => [0, 0]) (fun _ _ => [7]) 0 [⟨[10], [1]⟩]).2.2.getD
      (([[(1 : ℚ), 1]] : List (List ℚ)).length + 0) false = false ∧
    (fit_at_z [[1, 1]] [1, 1] [5, 6] [true, true] [1, 2]
        (fun _ _ => [0, 0]) (fun _ _ => [7]) 0 [⟨[10], [1]⟩]).2.1.getD
      (([[(1 : ℚ), 1]] : List (List ℚ)).length + 0) 0 = 0 ∧
    ∀ k, (fit_at_z [[1, 1]] [1, 1] [5, 6] [true, true] [1, 2]
          (fun _ _ => [0, 0]) (fun _ _ => [7]) 0 [⟨[10], [1]⟩]).2.2.getD
        k false = true →
      (fit_at_z [[1, 1]] [1, 1] [5, 6] [true, true] [1, 2]
          (fun _ _ => [0, 0]) (fun _ _ => [7]) 0 [⟨[10], [1]⟩]).2.1.getD
        k 0
        = ((fun _ _ => [(7 : ℚ)])
            (selCols (fit_at_z [[1, 1]] [1, 1] [5, 6] [true, true] [1, 2]
                (fun _ _ => [0, 0]) (fun _ _ => [7]) 0 [⟨[10], [1]⟩]).1
              (fit_at_z [[1, 1]] [1, 1] [5, 6] [true, true] [1, 2]
                (fun _ _ => [0, 0]) (fun _ _ => [7]) 0 [⟨[10], [1]⟩]).2.2
              [true, true])
            (maskRows [1, 2] [true, true])).getD
          (rankOf (fit_at_z [[1, 1]] [1, 1] [5, 6] [true, true] [1, 2]
              (fun _ _ => [0, 0]) (fun _ _ => [7]) 0
              [⟨[10], [1]⟩]).2.2 k) 0 :=
  c7_excluded_template_gets_zero [[1, 1]] [1, 1] [5, 6] [true, true] [1, 2]
    (fun _ _ => [0, 0]) (fun _ _ => [7]) 0 [⟨[10], [1]⟩] 0 (by decide)
    (by decide) (by decide)
    (Or.inr (Or.inl (by
      intro w hw l hl
      simp [zscaleWave] at hw
      subst hw
      fin_cases hl <;> norm_num)))

/-- `np.argmin`: index of the first minimum. -/
def argminIdx : List ℚ → ℕ
  | [] => 0
  | [_] => 0
  | a :: b :: rest =>
    let j := argminIdx (b :: rest)
    if a ≤ (b :: rest).getD j 0 then 0 else j + 1

theorem argminIdx_le : ∀ (l : List ℚ), ∀ x ∈ l, l.getD (argminIdx l) 0 ≤ x := by
  intro l
  induction l with
  | nil =>
    intro x hx
    simp at hx
  | cons a tail ih =>
    intro x hx
    cases tail with
    | nil =>
      simp at hx
      subst hx
      exact le_rfl
    | cons b rest =>
      rw [List.mem_cons] at hx
      show (a :: b :: rest).getD
        (if a ≤ (b :: rest).getD (argminIdx (b :: rest)) 0 then 0
          else argminIdx (b :: rest) + 1) 0 ≤ x
      split_ifs with hle
      · rcases hx with rfl | hx
        · exact le_refl x
        · exact le_trans hle (ih x hx)
      · push_neg at hle
        rcases hx with rfl | hx
        · exact le_of_lt hle
        · exact ih x hx

/-- Sort the `(z, chi2)` pairs by redshift (`np.argsort(zgrid)` reorder). -/
def sortByZ (l : List (ℚ × ℚ)) : List (ℚ × ℚ) :=
  List.insertionSort (fun p q => p.1 ≤ q.1) l

/-- The merge step at the end of `BeamCutout.fit_redshift`: append the
zoomed grid to the coarse grid, re-sort by redshift, and report
`(zbest, chi2 best) = grid[argmin(chi2)]` over the merged grid. -/
def fitRedshiftMerge (coarse zoom : List (ℚ × ℚ)) : ℚ × ℚ :=
  let merged := sortByZ (coarse ++ zoom)
  let chi := merged.map Prod.snd
  ((merged.getD (argminIdx chi) (0, 0)).1, chi.getD (argminIdx chi) 0)

/-- Claim C8: the chi-square reported at the best redshift of the merged,
redshift-sorted grid is never worse than any chi-square attained on the
coarse grid alone. -/
theorem c8_refined_grid_never_worse (coarse zoom : List (ℚ × ℚ))
    (p : ℚ × ℚ) (hp : p ∈ coarse) :
    (fitRedshiftMerge coarse zoom).2 ≤ p.2 := by
  unfold fitRedshiftMerge
  have hmem : p ∈ sortByZ (coarse ++ zoom) := by
    unfold sortByZ
    rw [(List.perm_insertionSort _ _).mem_iff]
    exact List.mem_append_left _ hp
  have hchi : p.2 ∈ (sortByZ (coarse ++ zoom)).map Prod.snd :=
    List.mem_map_of_mem _ hmem
  exact argminIdx_le _ _ hchi

/-- Witness for C8 on a concrete 2-point coarse grid and 1-point zoom. -/
theorem c8_refined_grid_never_worse_witness :
    (fitRedshiftMerge [(1, 10), (2, 4)] [(3/2, 3)]).2 ≤ ((2 : ℚ), (4 : ℚ)).2 :=
  c8_refined_grid_never_worse [(1, 10), (2, 4)] [(3/2, 3)] (2, 4) (by decide)

end Grizli
